import Mathlib

/-!
Verification of the torc reactive library (src/index.ts and the unnamed
companion source, an earlier revision of the same module with Site named
Observable and Signal named Behavior).

Embedding conventions, used consistently below:

* JavaScript objects are modelled by explicit state records and state-passing
  functions.  Continuations subscribed to a Wire are identified by natural
  numbers, the Lean rendering of object identity: the same Nat denotes the
  same object, two different Nats denote two different objects.  The strict
  equality test subscriber === continuation becomes equality of Nats.
* Deliveries to continuations are recorded in an explicit log, a list of
  pairs (continuation identity, value published to it), in the order in which
  the code invokes the continuations.
* Values carried by streams are modelled as Int.  The JavaScript truthiness
  test on a number (the expression !newValue in Signal.next) is the test
  against 0, rendered by jsTruthy.
* setTimeout(fn, 0) enqueues a task in a FIFO queue that runs after the
  current turn; the par model below makes that queue explicit.
* Re-entrant behaviour of continuations (a continuation that, when invoked,
  subscribes to or unsubscribes from the very Wire that is broadcasting) is
  modelled by giving every continuation identity an effect, ContEff, applied
  to the Wire state at the moment the continuation is invoked.
-/

/-! ## The Wire model

Translated from class Wire (src/index.ts lines 416-475; the unnamed source
lines 425-473 is identical up to renaming).  A Wire holds a done flag,
initially false, and an ordered array of subscribers.
-/

/-- State of a Wire: the field done is the protected flag of the class and
subscribers is the protected array of subscribed continuations, listed by
identity in insertion order. -/
structure WireState where
  done : Bool
  subscribers : List Nat
  deriving DecidableEq

/-- Activity returned by subscribing to a Wire through Site.subscribe.
When the wire is already done the constructor returns undefined and
Site.subscribe normalizes it to a no-op Activity; otherwise the constructor
returns a disposer closure that removes the first array entry strictly equal
to the subscribed continuation. -/
inductive WireActivity where
  | noop
  | unsubscriber (k : Nat)
  deriving DecidableEq

/-- The unsubscribe loop of the Wire constructor (src/index.ts lines
440-447): walk the entries of the subscriber array, splice out the first one
strictly equal to the continuation, and break. -/
def spliceFirst (k : Nat) : List Nat → List Nat
  | [] => []
  | x :: xs => if x = k then xs else x :: spliceFirst k xs

/-- Running the finish method of an Activity returned by Wire subscription:
the no-op Activity leaves the wire untouched and the disposer removes the
first occurrence of the continuation identity. -/
def runActivity : WireActivity → WireState → WireState
  | WireActivity.noop, w => w
  | WireActivity.unsubscriber k, w =>
    { w with subscribers := spliceFirst k w.subscribers }

/-- The subscription action installed by the Wire constructor (src/index.ts
lines 434-449), composed with the Site.subscribe normalization: if done,
return without touching the array (the caller receives a no-op Activity);
otherwise push the continuation and return the disposer for it. -/
def Wire.subscribeOp (k : Nat) (w : WireState) : WireState × WireActivity :=
  if w.done then (w, WireActivity.noop)
  else ({ w with subscribers := w.subscribers ++ [k] }, WireActivity.unsubscriber k)

/-- Wire.finish (src/index.ts lines 461-465): empty the subscriber array and
set the done flag. -/
def Wire.finish (_w : WireState) : WireState :=
  { done := true, subscribers := [] }

/-- Effect a continuation performs on the Wire when it is invoked during a
broadcast: nothing, subscribe a further continuation, or run the unsubscribe
disposer of some continuation. -/
inductive ContEff where
  | idle
  | subscribeEff (j : Nat)
  | unsubscribeEff (j : Nat)

/-- Apply the effect of an invoked continuation to the wire state. -/
def applyEff (e : ContEff) (w : WireState) : WireState :=
  match e with
  | ContEff.idle => w
  | ContEff.subscribeEff j => (Wire.subscribeOp j w).1
  | ContEff.unsubscribeEff j => runActivity (WireActivity.unsubscriber j) w

/-- One delivery inside the broadcast loop of Wire.next: the continuation k
receives the value (logged) and its body may mutate the live wire state. -/
def broadcastStep (env : Nat → ContEff) (v : Int)
    (acc : WireState × List (Nat × Int)) (k : Nat) : WireState × List (Nat × Int) :=
  (applyEff (env k) acc.1, acc.2 ++ [(k, v)])

/-- Wire.next (src/index.ts lines 467-474): if done, return; otherwise copy
the subscriber array with slice() and invoke every continuation of that
snapshot with the value, in snapshot order, while the live state may be
mutated by the invoked continuations as described by env. -/
def Wire.nextEff (env : Nat → ContEff) (v : Int) (w : WireState) :
    WireState × List (Nat × Int) :=
  if w.done then (w, [])
  else w.subscribers.foldl (broadcastStep env v) (w, [])

/-- The continuation environment in which every continuation is passive. -/
def effIdle : Nat → ContEff := fun _ => ContEff.idle

/-! Helper lemmas about the broadcast fold. -/

theorem foldl_broadcastStep_log (env : Nat → ContEff) (v : Int) :
    ∀ (l : List Nat) (w : WireState) (d : List (Nat × Int)),
      (l.foldl (broadcastStep env v) (w, d)).2 = d ++ l.map (fun k => (k, v)) := by
  intro l
  induction l with
  | nil => intro w d; simp
  | cons k rest ih =>
    intro w d
    simp only [List.foldl_cons, List.map_cons]
    rw [broadcastStep, ih]
    simp

theorem foldl_broadcastStep_state (env : Nat → ContEff) (v : Int) :
    ∀ (l : List Nat) (w : WireState) (d : List (Nat × Int)),
      (l.foldl (broadcastStep env v) (w, d)).1 =
        l.foldl (fun s k => applyEff (env k) s) w := by
  intro l
  induction l with
  | nil => intro w d; simp
  | cons k rest ih =>
    intro w d
    simp only [List.foldl_cons]
    rw [broadcastStep, ih]

theorem applyEff_done (e : ContEff) (w : WireState) :
    (applyEff e w).done = w.done := by
  cases e with
  | idle => rfl
  | subscribeEff j =>
    simp only [applyEff, Wire.subscribeOp]
    by_cases h : w.done <;> simp [h]
  | unsubscribeEff j => rfl

theorem foldl_applyEff_done (env : Nat → ContEff) :
    ∀ (l : List Nat) (w : WireState),
      (l.foldl (fun s k => applyEff (env k) s) w).done = w.done := by
  intro l
  induction l with
  | nil => intro w; rfl
  | cons k rest ih =>
    intro w
    simp only [List.foldl_cons]
    rw [ih, applyEff_done]

/-! ## C3: operation sequences against a Wire -/

/-- A top-level operation performed on a Wire: subscribing a continuation,
running the finish method of a subscription Activity, broadcasting a value,
or finishing the wire itself. -/
inductive WireOp where
  | subscribeOp (k : Nat)
  | unsubscribeOp (k : Nat)
  | nextOp (v : Int)
  | finishOp

/-- One top-level operation step; the log collects the deliveries the step
performs. -/
def wireStep (env : Nat → ContEff) (w : WireState) :
    WireOp → WireState × List (Nat × Int)
  | WireOp.subscribeOp k => ((Wire.subscribeOp k w).1, [])
  | WireOp.unsubscribeOp k => (runActivity (WireActivity.unsubscriber k) w, [])
  | WireOp.nextOp v => Wire.nextEff env v w
  | WireOp.finishOp => (Wire.finish w, [])

/-- Run a sequence of top-level operations, accumulating all deliveries. -/
def wireRun (env : Nat → ContEff) (w : WireState) :
    List WireOp → WireState × List (Nat × Int)
  | [] => (w, [])
  | op :: ops =>
    let s := wireStep env w op
    let r := wireRun env s.1 ops
    (r.1, s.2 ++ r.2)

theorem wireStep_finished (env : Nat → ContEff) (op : WireOp) :
    wireStep env { done := true, subscribers := [] } op =
      ({ done := true, subscribers := [] }, []) := by
  cases op with
  | subscribeOp k => simp [wireStep, Wire.subscribeOp]
  | unsubscribeOp k => simp [wireStep, runActivity, spliceFirst]
  | nextOp v => simp [wireStep, Wire.nextEff]
  | finishOp => simp [wireStep, Wire.finish]

/-- C3: for every Wire and every interleaved sequence of operations, once
finish has been called the subscriber collection is empty and stays empty,
no subscribed continuation is ever invoked by a later next (the delivery log
of every subsequent operation sequence is empty), subscribe adds no new
entries, and calling finish a second time is harmless: it produces exactly
the same state again (no double cleanup, and the model function is total, so
no error). -/
theorem wire_finish_permanent (env : Nat → ContEff) (ops : List WireOp)
    (w : WireState) :
    (wireRun env (Wire.finish w) ops).1 = { done := true, subscribers := [] } ∧
    (wireRun env (Wire.finish w) ops).2 = [] ∧
    Wire.finish (Wire.finish w) = Wire.finish w := by
  have key : ∀ ops2 : List WireOp,
      wireRun env { done := true, subscribers := [] } ops2 =
        ({ done := true, subscribers := [] }, []) := by
    intro ops2
    induction ops2 with
    | nil => rfl
    | cons op rest ih =>
      simp [wireRun, wireStep_finished, ih]
  have hfin : Wire.finish w = { done := true, subscribers := [] } := rfl
  rw [hfin, key ops]
  exact ⟨rfl, rfl, rfl⟩

/-! ## C5: the broadcast snapshot -/

/-- C5: on a non-done Wire, next delivers the value to the snapshot of the
subscriber collection copied (slice) before iteration, notifying the
continuations in snapshot order; whatever subscriptions or unsubscriptions
the invoked continuations perform synchronously (env), the set and order of
deliveries of this broadcast is exactly the snapshot; the mutations are
applied to the live state, in delivery order, and affect only future
broadcasts: a second next delivers exactly to the mutated collection. -/
theorem wire_next_snapshot_broadcast (env : Nat → ContEff) (v v2 : Int)
    (w : WireState) (h : w.done = false) :
    (Wire.nextEff env v w).2 = w.subscribers.map (fun k => (k, v)) ∧
    (Wire.nextEff env v w).1 =
      w.subscribers.foldl (fun s k => applyEff (env k) s) w ∧
    (Wire.nextEff env v w).1.done = false ∧
    (Wire.nextEff env v2 (Wire.nextEff env v w).1).2 =
      (Wire.nextEff env v w).1.subscribers.map (fun k => (k, v2)) := by
  have hne : Wire.nextEff env v w = w.subscribers.foldl (broadcastStep env v) (w, []) := by
    simp [Wire.nextEff, h]
  have hlog : (Wire.nextEff env v w).2 = w.subscribers.map (fun k => (k, v)) := by
    rw [hne, foldl_broadcastStep_log]; simp
  have hstate : (Wire.nextEff env v w).1 =
      w.subscribers.foldl (fun s k => applyEff (env k) s) w := by
    rw [hne, foldl_broadcastStep_state]
  have hdone : (Wire.nextEff env v w).1.done = false := by
    rw [hstate, foldl_applyEff_done, h]
  refine ⟨hlog, hstate, hdone, ?_⟩
  generalize hu : (Wire.nextEff env v w).1 = u at hdone ⊢
  have hne2 : Wire.nextEff env v2 u = u.subscribers.foldl (broadcastStep env v2) (u, []) := by
    simp [Wire.nextEff, hdone]
  rw [hne2, foldl_broadcastStep_log]
  simp

/-- Continuation environment used by the C5 witness: when continuation 0 is
invoked it runs the unsubscribe disposer of continuation 1; every other
continuation is passive. -/
def effUnsub01 : Nat → ContEff :=
  fun k => if k = 0 then ContEff.unsubscribeEff 1 else ContEff.idle

theorem wire_next_snapshot_broadcast_witness :
    (Wire.nextEff effUnsub01 5 ⟨false, [0, 1]⟩).2 =
      ([0, 1] : List Nat).map (fun k => (k, (5 : Int))) ∧
    (Wire.nextEff effUnsub01 5 ⟨false, [0, 1]⟩).1 =
      ([0, 1] : List Nat).foldl (fun s k => applyEff (effUnsub01 k) s) ⟨false, [0, 1]⟩ ∧
    (Wire.nextEff effUnsub01 5 ⟨false, [0, 1]⟩).1.done = false ∧
    (Wire.nextEff effUnsub01 7 (Wire.nextEff effUnsub01 5 ⟨false, [0, 1]⟩).1).2 =
      (Wire.nextEff effUnsub01 5 ⟨false, [0, 1]⟩).1.subscribers.map
        (fun k => (k, (7 : Int))) :=
  wire_next_snapshot_broadcast effUnsub01 5 7 ⟨false, [0, 1]⟩ rfl

/-! ## C6: subscription appends, its Activity removes the first instance -/

theorem spliceFirst_not_mem (k : Nat) :
    ∀ (l : List Nat), k ∉ l → spliceFirst k l = l := by
  intro l
  induction l with
  | nil => intro _; rfl
  | cons a rest ih =>
    intro hmem
    have ha : a ≠ k := by
      intro hak
      exact hmem (hak ▸ List.mem_cons_self a rest)
    have hrest : k ∉ rest := fun hr => hmem (List.mem_cons_of_mem a hr)
    simp [spliceFirst, ha, ih hrest]

theorem spliceFirst_append (k : Nat) (l₂ : List Nat) :
    ∀ (l₁ : List Nat), k ∉ l₁ → spliceFirst k (l₁ ++ k :: l₂) = l₁ ++ l₂ := by
  intro l₁
  induction l₁ with
  | nil => intro _; simp [spliceFirst]
  | cons a rest ih =>
    intro hmem
    have ha : a ≠ k := by
      intro hak
      exact hmem (hak ▸ List.mem_cons_self a rest)
    have hrest : k ∉ rest := fun hr => hmem (List.mem_cons_of_mem a hr)
    simp [spliceFirst, ha, ih hrest]

/-- C6: subscribing continuation k to a non-done Wire appends k to the
subscriber collection and hands back the Activity whose finish removes
exactly the first entry strictly equal to k.  Running that finish on a
collection of the shape front ++ k :: back, where k does not occur in front,
removes precisely that first instance: the result is front ++ back, so every
other entry, including the later duplicates of k inside back, stays in place
in its original order. -/
theorem wire_subscribe_append_unsubscribe_first (w : WireState) (k : Nat)
    (front back : List Nat) (hdone : w.done = false) (hk : k ∉ front) :
    Wire.subscribeOp k w =
      ({ w with subscribers := w.subscribers ++ [k] }, WireActivity.unsubscriber k) ∧
    runActivity (WireActivity.unsubscriber k) ⟨false, front ++ k :: back⟩ =
      ⟨false, front ++ back⟩ ∧
    (front ++ k :: back).count k = (front ++ back).count k + 1 := by
  refine ⟨by simp [Wire.subscribeOp, hdone], ?_, ?_⟩
  · simp only [runActivity]
    rw [spliceFirst_append k back front hk]
  · simp [List.count_append, List.count_cons]
    omega

theorem wire_subscribe_append_unsubscribe_first_witness :
    Wire.subscribeOp 5 ⟨false, [9]⟩ =
      ({ done := false, subscribers := [9] ++ [5] }, WireActivity.unsubscriber 5) ∧
    runActivity (WireActivity.unsubscriber 5) ⟨false, [9] ++ 5 :: [5, 9]⟩ =
      ⟨false, [9] ++ [5, 9]⟩ ∧
    ([9] ++ 5 :: [5, 9]).count 5 = ([9] ++ [5, 9]).count 5 + 1 :=
  wire_subscribe_append_unsubscribe_first ⟨false, [9]⟩ 5 [9] [5, 9] rfl (by decide)

/-! ## The Signal and Behavior model

Class Signal (src/index.ts lines 496-546) extends Wire with a stored value.
The unnamed companion source (lines 492-552) names the same class Behavior;
its subscribe method is textually identical to Signal.subscribe, but its
next method lacks the truthiness test that Signal.next performs on the new
value.  Both next methods are embedded below.
-/

/-- State of a Signal or Behavior: the underlying Wire state plus the stored
protected value. -/
structure SignalState where
  wire : WireState
  value : Int
  deriving DecidableEq

/-- JavaScript truthiness of a number: the expression !newValue is true
exactly when the number is 0 (or NaN, which the Int model does not contain),
so truthiness is the test against 0. -/
def jsTruthy (v : Int) : Bool := v != 0

/-- Signal.next (src/index.ts lines 540-545): if this.done or the new value
is falsy, return; otherwise assign the stored value and broadcast the
assigned value through Wire.next. -/
def Signal.next (env : Nat → ContEff) (v : Int) (s : SignalState) :
    SignalState × List (Nat × Int) :=
  if s.wire.done || !jsTruthy v then (s, [])
  else
    let s1 : SignalState := { s with value := v }
    let r := Wire.nextEff env v s1.wire
    ({ s1 with wire := r.1 }, r.2)

/-- Behavior.next (unnamed source lines 521-526): if this.done, return;
otherwise assign the stored value and broadcast the assigned value through
Wire.next.  Unlike Signal.next there is no truthiness test. -/
def Behavior.next (env : Nat → ContEff) (v : Int) (s : SignalState) :
    SignalState × List (Nat × Int) :=
  if s.wire.done then (s, [])
  else
    let s1 : SignalState := { s with value := v }
    let r := Wire.nextEff env v s1.wire
    ({ s1 with wire := r.1 }, r.2)

/-- Signal.subscribe (src/index.ts lines 528-534, textually identical to
Behavior.subscribe in the unnamed source lines 509-515): first perform the
Wire subscription, then immediately invoke the continuation once with the
current stored value, then return the Activity of the Wire subscription.
The result triple is the new state, the returned Activity, and the
deliveries made during the call. -/
def Signal.subscribe (k : Nat) (s : SignalState) :
    SignalState × WireActivity × List (Nat × Int) :=
  let r := Wire.subscribeOp k s.wire
  ({ s with wire := r.1 }, r.2, [(k, s.value)])

/-! ## C4: next updates the value and then broadcasts it -/

/-- C4 counterexample: a Signal that is not done, stores value 5 and has the
single subscriber 3.  The claim states that next 0 must update the stored
value to 0 and broadcast 0 to subscriber 3; the code instead hits the
truthiness guard of Signal.next, leaves the state untouched and broadcasts
nothing. -/
theorem signal_next_falsy_counterexample :
    Signal.next effIdle 0 ⟨⟨false, [3]⟩, 5⟩ = (⟨⟨false, [3]⟩, 5⟩, []) ∧
    ¬ ((Signal.next effIdle 0 ⟨⟨false, [3]⟩, 5⟩).1.value = 0 ∧
       (Signal.next effIdle 0 ⟨⟨false, [3]⟩, 5⟩).2 = [(3, 0)]) := by
  decide

/-- C4, amended: on a done Signal or Behavior, next changes nothing and
broadcasts nothing.  On a non-done Behavior, next v first updates the stored
value to v and then broadcasts exactly v to every subscriber of the
collection; a Signal behaves identically provided v is truthy, while a falsy
v is rejected unchanged (this last clause is the amendment the
counterexample forces).  Because the value is updated before the broadcast,
a subscriber attaching during the broadcast observes v on its initial
replay. -/
theorem signal_behavior_next_updates_then_broadcasts (env : Nat → ContEff)
    (v v0 : Int) (s s2 : SignalState) (k : Nat)
    (hd : s.wire.done = false) (hv : jsTruthy v = true)
    (hv0 : jsTruthy v0 = false) (hd2 : s2.wire.done = true) :
    (Behavior.next env v s).1.value = v ∧
    (Behavior.next env v s).2 = s.wire.subscribers.map (fun j => (j, v)) ∧
    Signal.next env v s = Behavior.next env v s ∧
    Signal.next env v0 s = (s, []) ∧
    Signal.next env v s2 = (s2, []) ∧
    Behavior.next env v s2 = (s2, []) ∧
    (Signal.subscribe k (Behavior.next env v s).1).2.2 = [(k, v)] := by
  have hb : Behavior.next env v s =
      ({ wire := (Wire.nextEff env v s.wire).1, value := v },
        (Wire.nextEff env v s.wire).2) := by
    simp [Behavior.next, hd]
  have hlog : (Wire.nextEff env v s.wire).2 =
      s.wire.subscribers.map (fun j => (j, v)) :=
    (wire_next_snapshot_broadcast env v v s.wire hd).1
  refine ⟨by rw [hb], by rw [hb]; exact hlog, ?_, ?_, ?_, ?_, ?_⟩
  · simp [Signal.next, Behavior.next, hd, hv]
  · simp [Signal.next, hv0]
  · simp [Signal.next, hd2]
  · simp [Behavior.next, hd2]
  · rw [hb]; rfl

theorem signal_behavior_next_updates_then_broadcasts_witness :
    (Behavior.next effIdle 5 ⟨⟨false, [2]⟩, 1⟩).1.value = 5 ∧
    (Behavior.next effIdle 5 ⟨⟨false, [2]⟩, 1⟩).2 =
      ([2] : List Nat).map (fun j => (j, (5 : Int))) ∧
    Signal.next effIdle 5 ⟨⟨false, [2]⟩, 1⟩ = Behavior.next effIdle 5 ⟨⟨false, [2]⟩, 1⟩ ∧
    Signal.next effIdle 0 ⟨⟨false, [2]⟩, 1⟩ = (⟨⟨false, [2]⟩, 1⟩, []) ∧
    Signal.next effIdle 5 ⟨⟨true, []⟩, 4⟩ = (⟨⟨true, []⟩, 4⟩, []) ∧
    Behavior.next effIdle 5 ⟨⟨true, []⟩, 4⟩ = (⟨⟨true, []⟩, 4⟩, []) ∧
    (Signal.subscribe 8 (Behavior.next effIdle 5 ⟨⟨false, [2]⟩, 1⟩).1).2.2 = [(8, 5)] :=
  signal_behavior_next_updates_then_broadcasts effIdle 5 0 ⟨⟨false, [2]⟩, 1⟩
    ⟨⟨true, []⟩, 4⟩ 8 rfl rfl rfl rfl

/-! ## C10: subscribing to a finished Signal or Behavior -/

/-- C10: on a Signal or Behavior whose finish has been called (done is
true), subscribe still synchronously delivers the current stored value to
the supplied continuation exactly once before returning, returns the no-op
Activity, and leaves the state untouched: the continuation is never added to
the subscriber collection and no later broadcast delivers anything to it
(any next on the done state produces an empty delivery log). -/
theorem signal_subscribe_after_finish (s : SignalState) (k : Nat) (v : Int)
    (env : Nat → ContEff) (hd : s.wire.done = true) :
    Signal.subscribe k s = (s, WireActivity.noop, [(k, s.value)]) ∧
    runActivity WireActivity.noop s.wire = s.wire ∧
    (Signal.next env v s).2 = [] ∧
    (Behavior.next env v s).2 = [] ∧
    (Wire.nextEff env v s.wire).2 = [] := by
  refine ⟨?_, rfl, ?_, ?_, ?_⟩
  · simp [Signal.subscribe, Wire.subscribeOp, hd]
  · simp [Signal.next, hd]
  · simp [Behavior.next, hd]
  · simp [Wire.nextEff, hd]

theorem signal_subscribe_after_finish_witness :
    Signal.subscribe 1 ⟨⟨true, []⟩, 4⟩ = (⟨⟨true, []⟩, 4⟩, WireActivity.noop, [(1, 4)]) ∧
    runActivity WireActivity.noop ⟨true, []⟩ = ⟨true, []⟩ ∧
    (Signal.next effIdle 2 ⟨⟨true, []⟩, 4⟩).2 = [] ∧
    (Behavior.next effIdle 2 ⟨⟨true, []⟩, 4⟩).2 = [] ∧
    (Wire.nextEff effIdle 2 ⟨true, []⟩).2 = [] :=
  signal_subscribe_after_finish ⟨⟨true, []⟩, 4⟩ 1 2 effIdle rfl

/-! ## The Site subscription contract (C7)

Class Site (src/index.ts lines 70-103; the unnamed source lines 46-77 names
it Observable, with the field named action instead of sub) wraps a single
private subscription function.  Effects are rendered by state passing: a
continuation is a function from a value and a state to a new state and a
result, the subscription function maps a continuation and a state to a new
state and one of the three return shapes, and an Activity is its finish
method, a function from state to state.
-/

/-- The three shapes the private subscription function may return
(src/index.ts line 74): nothing, a plain disposer function, or an Activity,
the latter modelled by its finish method. -/
inductive SubReturn (σ : Type) where
  | void
  | disposer (f : σ → σ)
  | activity (f : σ → σ)

/-- The normalization performed by Site.subscribe on the value returned by
the subscription function (src/index.ts lines 93-101): nothing becomes the
Activity whose finish does nothing, a plain function becomes the Activity
whose finish calls it, and an Activity is passed through unchanged. -/
def normalizeFinish {σ : Type} : SubReturn σ → (σ → σ)
  | SubReturn.void => fun s => s
  | SubReturn.disposer f => f
  | SubReturn.activity f => f

/-- The argument accepted by Site.subscribe (src/index.ts line 83): either a
Continuation object carrying a next method, or a plain unary function. -/
inductive ContArg (A B σ : Type) where
  | contObj (next : A → σ → σ × B)
  | plainFn (f : A → σ → σ × B)

/-- The canonical continuation Site.subscribe hands to the subscription
function: a Continuation object is used as is, while a plain function f is
wrapped in a fresh object whose next method returns the result of f
(src/index.ts lines 86-92). -/
def toCont {A B σ : Type} : ContArg A B σ → (A → σ → σ × B)
  | ContArg.contObj n => n
  | ContArg.plainFn f => fun v st => f v st

/-- Site.subscribe (src/index.ts lines 82-102): branch on the shape of the
argument, apply the private subscription function exactly once to the
canonical continuation, and normalize its return value into an Activity. -/
def Site.subscribe {A B σ : Type}
    (action : (A → σ → σ × B) → σ → σ × SubReturn σ)
    (c : ContArg A B σ) (s : σ) : σ × (σ → σ) :=
  let r :=
    match c with
    | ContArg.plainFn f => action (fun v st => f v st) s
    | ContArg.contObj n => action n s
  (r.1, normalizeFinish r.2)

/-- C7: for every subscription function and every argument shape, subscribe
always returns an Activity obtained by normalizing the return value of the
subscription function, and the state it returns is the state produced by a
single application of the subscription function to the canonical
continuation (the state-passing rendering of: the underlying subscription
function is invoked exactly once per subscribe call).  The normalization
sends nothing to the no-op finish, a plain disposer f to the Activity whose
finish is f, and an Activity through unchanged. -/
theorem site_subscribe_normalization {A B σ : Type}
    (action : (A → σ → σ × B) → σ → σ × SubReturn σ)
    (n : A → σ → σ × B) (s : σ) (f g : σ → σ) :
    Site.subscribe action (ContArg.contObj n) s =
      ((action n s).1, normalizeFinish (action n s).2) ∧
    Site.subscribe action (ContArg.plainFn n) s =
      ((action (toCont (ContArg.plainFn n)) s).1,
        normalizeFinish (action (toCont (ContArg.plainFn n)) s).2) ∧
    normalizeFinish (SubReturn.void : SubReturn σ) = (fun st => st) ∧
    normalizeFinish (SubReturn.disposer f) = f ∧
    normalizeFinish (SubReturn.activity g) = g :=
  ⟨rfl, rfl, rfl, rfl, rfl⟩

/-! ## each and its cancellation (C8)

Function each (src/index.ts lines 153-170; unnamed source lines 158-178):
the subscription sets a cancelled flag to false, defers the iteration to a
later turn with setTimeout, and returns a disposer that sets the flag.  The
deferred loop tests the flag before every element: if set it breaks,
otherwise it delivers the element.  In the single-threaded host the flag can
change during the loop only if a delivery itself (through the downstream
continuation, as prune does) runs the disposer; the model therefore lets the
continuation report, per delivered value, whether it ran the disposer during
that delivery.  Running the disposer before the deferred loop starts is the
case of an initially true flag.
-/

/-- The deferred iteration loop of each: before each element the cancelled
flag is tested; on true the loop breaks, otherwise the element is delivered
and the continuation k may set the flag during the delivery.  The result is
the list of delivered elements in order. -/
def eachLoop (k : Int → Bool) : List Int → Bool → List Int
  | [], _ => []
  | _ :: _, true => []
  | v :: rest, false => v :: eachLoop k rest (k v)

/-- C8: if the Activity returned by each is finished before the deferred
loop starts, no element at all is delivered; and wherever in the sequence
the cancellation occurs (the first delivered element during whose delivery
the continuation runs the disposer, at index findIdx), no element beyond
that point is ever delivered: the delivered list is exactly the prefix of
the sequence up to and including the cancelling element. -/
theorem each_cancellation_stops_delivery (k : Int → Bool) (l : List Int) :
    eachLoop k l true = [] ∧
    eachLoop k l false = l.take (l.findIdx k + 1) := by
  constructor
  · cases l <;> rfl
  · induction l with
    | nil => rfl
    | cons v rest ih =>
      by_cases hk : k v
      · have hrest : eachLoop k rest true = [] := by cases rest <;> rfl
        simp [eachLoop, hk, hrest, List.findIdx_cons]
      · have hkf : k v = false := by simpa using hk
        simp [eachLoop, hkf, List.findIdx_cons, ih]

/-! ## map, filter and their composition (C9)

Operator map (src/index.ts lines 291-301) keeps a per-subscription counter
starting at 0; for each upstream value it delivers fn(value, count) and
increments the counter.  Operator filter (src/index.ts lines 340-352) keeps
its own per-subscription counter; for each upstream value it tests
fn(value, count), increments the counter in every case, and delivers the
value unchanged only on a true test.  The composed pipeline
filter(p)(map(f)(source)) therefore processes each value emitted by the
source through the map handler and, for the value the map handler delivers,
through the filter handler; the model below traces that composition over a
source that emits the list xs in order, threading the two counters.
-/

/-- Trace of the composed pipeline filter(p)(map(f)(source)) over a source
emitting the elements of the list in order. mc is the counter of the map
stage and fc the counter of the filter stage; both start at 0 when the
pipeline is subscribed. -/
def mapFilterPipe (f : Int → Nat → Int) (p : Int → Nat → Bool) :
    List Int → Nat → Nat → List Int
  | [], _, _ => []
  | x :: xs, mc, fc =>
    if p (f x mc) fc then f x mc :: mapFilterPipe f p xs (mc + 1) (fc + 1)
    else mapFilterPipe f p xs (mc + 1) (fc + 1)

/-- The downstream deliveries of filter(p)(map(f)(source)) for a source
emitting xs, both counters starting at 0. -/
def composedPipeline (f : Int → Nat → Int) (p : Int → Nat → Bool)
    (xs : List Int) : List Int :=
  mapFilterPipe f p xs 0 0

/-- Mapping a list with the element index, the index starting at n. -/
def idxMap (f : Int → Nat → Int) (n : Nat) : List Int → List Int
  | [] => []
  | x :: xs => f x n :: idxMap f (n + 1) xs

/-- Filtering a list with the element index, the index starting at n and
incremented for every examined element, kept or dropped. -/
def idxFilter (p : Int → Nat → Bool) (n : Nat) : List Int → List Int
  | [] => []
  | y :: ys => if p y n then y :: idxFilter p (n + 1) ys else idxFilter p (n + 1) ys

/-- Modelled from the spec sentence for C9: filtering the mapped values in
order, where the index passed to the predicate counts emissions of the
post-map stream, starting at 0 and incremented once per mapped emission. -/
def specMapFilter (f : Int → Nat → Int) (p : Int → Nat → Bool)
    (xs : List Int) : List Int :=
  idxFilter p 0 (idxMap f 0 xs)

theorem mapFilterPipe_eq_idx (f : Int → Nat → Int) (p : Int → Nat → Bool) :
    ∀ (xs : List Int) (n : Nat),
      mapFilterPipe f p xs n n = idxFilter p n (idxMap f n xs) := by
  intro xs
  induction xs with
  | nil => intro n; rfl
  | cons x rest ih =>
    intro n
    simp only [mapFilterPipe, idxMap, idxFilter, ih (n + 1)]

/-- C9: the composed pipeline filter(p)(map(f)(source)) delivers, value for
value, the same results as filtering the mapped values in order, the index
passed to the predicate counting the emissions of the post-map stream for
this subscription (starting at 0 and incremented once per mapped emission,
which for the one-to-one map stage coincides position-wise with the source
emission count). -/
theorem map_filter_composition_post_map_index (f : Int → Nat → Int)
    (p : Int → Nat → Bool) (xs : List Int) :
    composedPipeline f p xs = specMapFilter f p xs :=
  mapFilterPipe_eq_idx f p xs 0

/-! ## prune (C1)

Operator prune (src/index.ts lines 368-379; unnamed source lines 367-376):
the subscription binds, with const, the Activity obtained by subscribing to
the source a handler that first calls activity.finish() and then forwards
the value downstream; the Activity is then returned.

Two behaviours follow from the code, depending on when the source emits.

If the source defers its emissions to a later turn, as each does, the const
binding is initialized (with the normalized each Activity, whose finish sets
the cancelled flag of each) before the first delivery runs.  The first
delivery then sets the cancelled flag before the downstream continuation
runs, and the each loop breaks at the next element.

If the source emits synchronously while source.subscribe is still running,
as pure or a synchronous shift does, the handler runs before the const
binding activity has been initialized; reading it raises a ReferenceError
(the temporal dead zone of const), which propagates out through the emission
loop of the source, so the downstream continuation is never invoked at all.
-/

/-- Events of a run of prune over an each source. -/
inductive PruneEv where
  | finishSrc
  | deliver (v : Int)
  deriving DecidableEq

/-- The each loop driving the prune handler: before each element the each
cancelled flag is tested; a delivered element first finishes the source
Activity (setting the flag) and then reaches the downstream continuation. -/
def pruneEachEvents : Bool → List Int → List PruneEv
  | _, [] => []
  | true, _ :: _ => []
  | false, v :: rest => PruneEv.finishSrc :: PruneEv.deliver v :: pruneEachEvents true rest

/-- The values that reach the downstream continuation in an event trace. -/
def deliveredOf : List PruneEv → List Int
  | [] => []
  | PruneEv.finishSrc :: rest => deliveredOf rest
  | PruneEv.deliver v :: rest => v :: deliveredOf rest

/-- The emission loop of a source that emits the list synchronously during
subscribe, wired to the prune handler.  The first statement of the handler
reads the const binding activity, which source.subscribe has not yet
initialized, so every synchronous emission raises a ReferenceError before
anything is delivered; the exception aborts the emission loop.  With no
emission the subscribe call simply returns. -/
def pruneSyncEmit (delivered : List Int) : List Int → Except String (List Int)
  | [] => Except.ok delivered
  | _ :: _ => Except.error "ReferenceError: activity is not initialized"

/-- Deliveries of prune over a source emitting the list synchronously during
subscribe: the error value is the ReferenceError aborting the subscription,
an ok value lists what reached the downstream continuation. -/
def pruneSyncRun (l : List Int) : Except String (List Int) :=
  pruneSyncEmit [] l

/-- C1 counterexample: over a source that synchronously emits 3, 2, 1 during
subscribe, the claim demands that exactly the value 3 be delivered
downstream with the source Activity finished first; the code instead raises
a ReferenceError on the very first emission, because the const binding
activity is still uninitialized inside the handler, and nothing is ever
delivered downstream. -/
theorem prune_sync_tdz_counterexample :
    pruneSyncRun [3, 2, 1] =
      Except.error "ReferenceError: activity is not initialized" ∧
    pruneSyncRun [3, 2, 1] ≠ Except.ok [3] := by
  constructor
  · rfl
  · intro h
    exact Except.noConfusion h

/-!
Whether values beyond the first are suppressed depends entirely on what the
finish of the source Activity does, because prune keeps no defensive latch:
it only calls activity.finish() and forwards.  A deferred source whose
Activity does not suppress its remaining emissions keeps delivering.  The
concrete witness of that regime in this code base is prune over
par of pure sources: par (src/index.ts lines 230-243) runs, per source, a
deferred task that subscribes the source and only afterwards pushes the
resulting Activity onto its activities array, while pure (lines 125-129)
emits during subscribe and returns nothing, normalized to a no-op Activity.
When a pure source emits, the prune handler calls finish on the par
Activity, which runs finish on the no-op Activities pushed so far and
touches neither the task queue nor the current emission, so the value is
forwarded downstream; every queued source therefore delivers its value.
-/

/-- State of a run of prune over par of pure sources: the par activities
array in push order, the Activities that have received finish through the
par disposer, and the values that reached the downstream continuation. -/
structure PruneParState where
  activities : List Nat
  cancelled : List Nat
  delivered : List Int
  deriving DecidableEq

/-- The deferred tasks of par, driven one after the other from the FIFO
queue, with the prune handler subscribed downstream.  Task i subscribes
pure source i, whose emission runs the prune handler: activity.finish()
runs the par disposer over the Activities pushed so far (recorded in
cancelled, all of them no-ops of earlier pure sources), then the value
vals i is forwarded downstream; after the subscribe call returns, the no-op
Activity of source i is pushed. -/
def pruneParLoop (vals : Nat → Int) (acts cans : List Nat) (dels : List Int) :
    List Nat → PruneParState
  | [] => ⟨acts, cans, dels⟩
  | i :: rest =>
    pruneParLoop vals (acts ++ [i]) (cans ++ acts) (dels ++ [vals i]) rest

/-- Running prune over par of n pure sources to completion. -/
def pruneParRun (vals : Nat → Int) (n : Nat) : PruneParState :=
  pruneParLoop vals [] [] [] (List.range n)

theorem pruneParLoop_delivered (vals : Nat → Int) :
    ∀ (q acts cans : List Nat) (dels : List Int),
      (pruneParLoop vals acts cans dels q).delivered = dels ++ q.map vals := by
  intro q
  induction q with
  | nil => intro acts cans dels; simp [pruneParLoop]
  | cons i rest ih =>
    intro acts cans dels
    simp [pruneParLoop, ih]

/-- C1, amended: what prune delivers downstream is governed by the finish of
the source Activity, since prune itself keeps no latch.  Over each, a source
that defers emission until after subscribe returns and whose Activity sets a
cancelled flag consulted before every element, exactly the first element is
delivered, the source Activity being finished before the downstream
continuation runs (first two conjuncts).  Over a source that emits
synchronously during subscribe, the first emission raises a ReferenceError
and nothing at all is delivered (third conjunct).  And over a deferred
source whose finished Activity does not suppress its remaining emissions,
here par over pure sources, every value of every queued source still reaches
the downstream continuation, not only the first (fourth conjunct). -/
theorem prune_delivery_depends_on_source_activity (l : List Int) (v : Int)
    (rest : List Int) (vals : Nat → Int) (n : Nat) :
    pruneEachEvents false l =
      (l.take 1).flatMap (fun w => [PruneEv.finishSrc, PruneEv.deliver w]) ∧
    deliveredOf (pruneEachEvents false l) = l.take 1 ∧
    pruneSyncRun (v :: rest) =
      Except.error "ReferenceError: activity is not initialized" ∧
    (pruneParRun vals n).delivered = (List.range n).map vals := by
  refine ⟨?_, ?_, rfl, ?_⟩
  · cases l with
    | nil => rfl
    | cons w tail =>
      have htail : pruneEachEvents true tail = [] := by cases tail <;> rfl
      simp [pruneEachEvents, htail]
  · cases l with
    | nil => rfl
    | cons w tail =>
      have htail : pruneEachEvents true tail = [] := by cases tail <;> rfl
      simp [pruneEachEvents, htail, deliveredOf]
  · simp [pruneParRun, pruneParLoop_delivered]

/-! ## par (C2)

Function par (src/index.ts lines 230-243; unnamed source lines 245-262):
the subscription creates an empty activities array and, for every source,
defers with setTimeout a task that subscribes the source and pushes the
resulting Activity; it returns a disposer that calls finish on every
Activity currently in the array.  The deferred tasks sit in the FIFO task
queue of the host; nothing in the code removes or disables a task that has
not yet run when the disposer is called.

The model indexes the sources 0, 1, ... and treats each as a pure-like
source, which on subscription immediately delivers its value vals i and
yields its own Activity; finishing that Activity is recorded in the
cancelled list.
-/

/-- State of one subscription to par: the FIFO queue of deferred
subscription tasks not yet run (source indices), the activities array in
push order, the indices whose Activity has received finish, and the values
delivered downstream so far. -/
structure ParState where
  queue : List Nat
  activities : List Nat
  cancelled : List Nat
  delivered : List Int
  deriving DecidableEq

/-- Subscribing to par over n sources: every deferred task is enqueued and
nothing has run yet. -/
def parSubscribe (n : Nat) : ParState :=
  { queue := List.range n, activities := [], cancelled := [], delivered := [] }

/-- Running the next deferred task from the queue: the task subscribes its
source, which delivers its value downstream, and pushes the source Activity
onto the activities array.  With an empty queue there is nothing to run. -/
def runTask (vals : Nat → Int) (s : ParState) : ParState :=
  match s.queue with
  | [] => s
  | i :: rest =>
    { queue := rest
      activities := s.activities ++ [i]
      cancelled := s.cancelled
      delivered := s.delivered ++ [vals i] }

/-- The disposer returned by par: call finish on every Activity currently in
the activities array.  The queue of deferred tasks is untouched. -/
def parFinish (s : ParState) : ParState :=
  { s with cancelled := s.cancelled ++ s.activities }

/-- The source values used by the C2 counterexample: source i delivers
i + 10. -/
def parVals (i : Nat) : Int := (i : Int) + 10

/-- C2 counterexample: two sources; the first deferred task runs (source 0
subscribes and delivers 10), then the Activity of the par subscription is
finished while the task of source 1 is still queued, so source 1 has not
started: it is neither in the activities array nor cancelled.  The claim
demands that source 1 never subscribe and never deliver; but when its queued
task then runs, source 1 subscribes and delivers 11 downstream. -/
theorem par_unstarted_source_delivers_counterexample :
    (parFinish (runTask parVals (parSubscribe 2))).activities = [0] ∧
    (parFinish (runTask parVals (parSubscribe 2))).queue = [1] ∧
    (runTask parVals (parFinish (runTask parVals (parSubscribe 2)))).delivered
      = [10, 11] ∧
    (runTask parVals (parFinish (runTask parVals (parSubscribe 2)))).activities
      = [0, 1] := by
  refine ⟨?_, ?_, ?_, ?_⟩ <;> decide

/-- C2, amended: finishing the Activity returned by par cancels every source
whose subscription has already started at that moment (every index in the
activities array lands in the cancelled list) and leaves the queue of
deferred subscription tasks untouched; a source whose deferred task has not
yet run is not prevented from starting: when its task later runs, the source
subscribes, delivers its value downstream and pushes its Activity, which
only a later finish call would cancel. -/
theorem par_finish_cancels_started_only (vals : Nat → Int) (s t : ParState)
    (i j : Nat) (rest : List Nat)
    (hi : i ∈ s.activities) (hq : t.queue = j :: rest) :
    i ∈ (parFinish s).cancelled ∧
    (parFinish s).queue = s.queue ∧
    runTask vals t =
      { queue := rest
        activities := t.activities ++ [j]
        cancelled := t.cancelled
        delivered := t.delivered ++ [vals j] } := by
  refine ⟨?_, rfl, ?_⟩
  · simp [parFinish, hi]
  · simp [runTask, hq]

theorem par_finish_cancels_started_only_witness :
    0 ∈ (parFinish ⟨[1], [0], [], [10]⟩).cancelled ∧
    (parFinish ⟨[1], [0], [], [10]⟩).queue = ([1] : List Nat) ∧
    runTask parVals ⟨[1], [0], [0], [10]⟩ =
      { queue := ([] : List Nat)
        activities := [0] ++ [1]
        cancelled := [0]
        delivered := [10] ++ [parVals 1] } :=
  par_finish_cancels_started_only parVals ⟨[1], [0], [], [10]⟩
    ⟨[1], [0], [0], [10]⟩ 0 1 [] (by decide) rfl
